import Mathlib

/-!
# Verification of the messaging subsystem (Django-signals_orm-0x04/messaging)

Shallow embedding of the messaging app's entity store (models.py), its signal
hooks (signals.py: `create_message_notification`, `log_message_edit`,
`cleanup_user_data`), the reply tree (`get_thread` / the `replies` related
manager), the unread read-model and the cached inbox view.

Users are identified by `Nat` ids; they are external to the core (only
referenced).  Wall-clock time (`timezone.now`) is passed explicitly as a `Nat`
parameter where the source reads the clock.  Machine state is a `Store` record
holding the four tables; Django's per-statement autocommit is modelled by
operations returning the resulting `Store` together with an `Option Err`
describing a raised exception (the store returned alongside an error is the
state the database was left in when the exception propagated).
-/

namespace Messaging

/-- `Message` row (models.py).  `parent_message` is the nullable self-reference
(`related_name='replies'`). -/
structure Msg where
  id : Nat
  sender : Nat
  receiver : Nat
  content : String
  timestamp : Nat
  is_read : Bool
  edited : Bool
  parent_message : Option Nat
deriving DecidableEq, Repr

/-- `Notification` row (models.py): target user, associated message,
`created_at`, `is_read` (default false). -/
structure Notif where
  id : Nat
  user : Nat
  message : Nat
  created_at : Nat
  is_read : Bool
deriving DecidableEq, Repr

/-- `MessageHistory` row (models.py): associated message, `old_content`
snapshot, `edited_at`, editor user. -/
structure MsgHistory where
  id : Nat
  message : Nat
  old_content : String
  edited_at : Nat
  editor : Nat
deriving DecidableEq, Repr

/-- Errors an operation can raise (spec §7 taxonomy; `authError` models the
`AttributeError` escaping `django.contrib.auth.get_user(None)`). -/
inductive Err where
  | notFound
  | authError
  | storageError
  | refIntegrity
deriving DecidableEq, Repr

/-- Ambient authentication context available to the `pre_save` hook when it
calls `get_user`: the call can raise (`err`), return an unauthenticated user
(`anon`), or return an authenticated user. -/
inductive AuthCtx where
  | err
  | anon
  | auth (u : Nat)
deriving DecidableEq, Repr

/-- The relational store: Users (external, referenced), Messages,
Notifications, MessageHistory rows, plus primary-key counters. -/
structure Store where
  users : List Nat
  messages : List Msg
  notifications : List Notif
  histories : List MsgHistory
  nextMsgId : Nat
  nextNotifId : Nat
  nextHistId : Nat
deriving DecidableEq, Repr

def emptyStore : Store :=
  { users := [], messages := [], notifications := [], histories := [],
    nextMsgId := 0, nextNotifId := 0, nextHistId := 0 }

/-- The ids of all persisted messages. -/
def msgIds (s : Store) : List Nat := s.messages.map (·.id)

/-- `Message.objects.get(pk=id)` / `filter(id=...).first()`: the persisted row
with the given primary key. -/
def findMsg (s : Store) (id : Nat) : Option Msg :=
  s.messages.find? (fun m => decide (m.id = id))

/-- SQL `UPDATE ... WHERE pk = inst.id`: replace the row with `inst`'s primary
key by `inst`, leaving every other row unchanged. -/
def updateRow (msgs : List Msg) (inst : Msg) : List Msg :=
  msgs.map (fun m => if m.id = inst.id then inst else m)

/-- The default listing order of Messages: `Meta.ordering = ['-timestamp']`,
i.e. reverse-chronological (newest first). -/
def chronDesc (a b : Msg) : Prop := b.timestamp ≤ a.timestamp

instance : DecidableRel chronDesc := fun a b => Nat.decLe b.timestamp a.timestamp

instance : IsTotal Msg chronDesc := ⟨fun a b => Nat.le_total b.timestamp a.timestamp⟩

instance : IsTrans Msg chronDesc := ⟨fun _ _ _ h1 h2 => Nat.le_trans h2 h1⟩

/-- Apply the default queryset ordering (`order_by('-timestamp')`). -/
def defaultOrder (l : List Msg) : List Msg := List.insertionSort chronDesc l

/-- Referential-integrity check the database performs on the nullable
`parent_message` foreign key at INSERT time. -/
def parentOk (s : Store) (parent : Option Nat) : Bool :=
  match parent with
  | none => true
  | some p => decide (p ∈ msgIds s)

/-- `Message.objects.create(...)` followed by the `post_save` hook
`create_message_notification` (signals.py).  The INSERT commits first; the hook
then creates exactly one Notification for the receiver when `created` is true.
`notifFails` injects a storage failure into the Notification INSERT: the
exception propagates, but the Message INSERT has already committed. -/
def createMessageF (s : Store) (sender receiver : Nat) (content : String)
    (ts : Nat) (parent : Option Nat) (notifFails : Bool) : Store × Option Err :=
  if sender ∈ s.users ∧ receiver ∈ s.users ∧ parentOk s parent = true then
    let m : Msg :=
      { id := s.nextMsgId, sender := sender, receiver := receiver,
        content := content, timestamp := ts, is_read := false, edited := false,
        parent_message := parent }
    let s1 : Store :=
      { s with messages := s.messages ++ [m], nextMsgId := s.nextMsgId + 1 }
    if notifFails then (s1, some Err.storageError)
    else
      let n : Notif :=
        { id := s1.nextNotifId, user := receiver, message := m.id,
          created_at := ts, is_read := false }
      ({ s1 with notifications := s1.notifications ++ [n],
                 nextNotifId := s1.nextNotifId + 1 }, none)
  else (s, some Err.refIntegrity)

/-- Fault-free message creation. -/
def createMessage (s : Store) (sender receiver : Nat) (content : String)
    (ts : Nat) (parent : Option Nat) : Store × Option Err :=
  createMessageF s sender receiver content ts parent false

/-- The acting editor resolved by `log_message_edit`: the authenticated user if
available, otherwise the message's sender (`current_user = instance.sender`). -/
def resolveEditor (ctx : AuthCtx) (inst : Msg) : Nat :=
  match ctx with
  | AuthCtx.auth u => u
  | _ => inst.sender

/-- `instance.save()` on a Message instance carrying a primary key, together
with the `pre_save` hook `log_message_edit` (signals.py) and the `post_save`
hook.  Mirrors the source's order of effects:
the hook loads the persisted row; when the persisted content differs from the
incoming content it calls `get_user` (which may raise, aborting the save with
nothing written), falls back to the sender when unauthenticated, INSERTs a
MessageHistory row snapshotting the old content (`histFails` injects a failure
there, aborting before the UPDATE), sets `instance.edited = True`, and then the
UPDATE commits.  When the content is unchanged the hook does nothing and the
UPDATE commits as-is.  When no row with the given pk exists the hook's
`Message.DoesNotExist` branch passes and Django's `save()` falls back to an
INSERT, firing `post_save` with `created=True`. -/
def saveMessageF (s : Store) (inst : Msg) (ctx : AuthCtx) (ts : Nat)
    (histFails : Bool) : Store × Option Err :=
  match findMsg s inst.id with
  | some old =>
    if old.content = inst.content then
      ({ s with messages := updateRow s.messages inst }, none)
    else
      match ctx with
      | AuthCtx.err => (s, some Err.authError)
      | _ =>
        if histFails then (s, some Err.storageError)
        else
          let h : MsgHistory :=
            { id := s.nextHistId, message := inst.id,
              old_content := old.content, edited_at := ts,
              editor := resolveEditor ctx inst }
          let inst' : Msg := { inst with edited := true }
          ({ s with histories := s.histories ++ [h],
                    nextHistId := s.nextHistId + 1,
                    messages := updateRow s.messages inst' }, none)
  | none =>
    let n : Notif :=
      { id := s.nextNotifId, user := inst.receiver, message := inst.id,
        created_at := ts, is_read := false }
    ({ s with messages := s.messages ++ [inst],
              notifications := s.notifications ++ [n],
              nextNotifId := s.nextNotifId + 1 }, none)

/-- Modelled from the spec: `editMessage(messageId, newContent, actingUser)`
(spec §6) is an interface of the core that has no function of its own under
src/ (the tests edit by loading an instance, assigning `content` and calling
`save()`).  Per the spec it fails with `NotFoundError` when `messageId` is
unknown; otherwise it performs exactly the source's load-assign-save sequence,
which runs the `pre_save` hook `log_message_edit`. -/
def editMessageF (s : Store) (id : Nat) (newContent : String) (ctx : AuthCtx)
    (ts : Nat) (histFails : Bool) : Store × Option Err :=
  match findMsg s id with
  | none => (s, some Err.notFound)
  | some old => saveMessageF s { old with content := newContent } ctx ts histFails

/-- Fault-free edit. -/
def editMessage (s : Store) (id : Nat) (newContent : String) (ctx : AuthCtx)
    (ts : Nat) : Store × Option Err :=
  editMessageF s id newContent ctx ts false

/-- Read-receipt: load the row, set `is_read = True`, `save()`.  The content is
unchanged, so `log_message_edit`'s changed-content branch (and its `get_user`
call) is never reached; the authentication context is irrelevant. -/
def markRead (s : Store) (id : Nat) : Store × Option Err :=
  match findMsg s id with
  | none => (s, some Err.notFound)
  | some old => saveMessageF s { old with is_read := true } AuthCtx.err 0 false

/-! ## Cascading deletion (the `on_delete=models.CASCADE` declarations) -/

/-- A message newly reached by one cascade round: its parent is already in the
dead set but it is not yet. -/
def newlyDead (dead : List Nat) (m : Msg) : Bool :=
  match m.parent_message with
  | some p => decide (p ∈ dead) && !(decide (m.id ∈ dead))
  | none => false

/-- One round of the cascade collector: append the ids of all messages whose
parent is already collected. -/
def cascadeStep (msgs : List Msg) (dead : List Nat) : List Nat :=
  dead ++ (msgs.filter (newlyDead dead)).map (·.id)

/-- Iterate the collector: with fuel `msgs.length` this reaches the transitive
closure, matching Django's delete-collector which gathers every row reachable
through CASCADE foreign keys. -/
def cascadeClosure : Nat → List Msg → List Nat → List Nat
  | 0, _, dead => dead
  | fuel + 1, msgs, dead => cascadeClosure fuel msgs (cascadeStep msgs dead)

/-- Delete all messages matching `p`, cascading per models.py: replies cascade
with their parent (`parent_message` has `on_delete=CASCADE`), and
Notifications / MessageHistory rows referencing a deleted Message cascade with
it (their `message` foreign keys have `on_delete=CASCADE`). -/
def deleteMessagesWhere (s : Store) (p : Msg → Bool) : Store :=
  let dead := cascadeClosure s.messages.length s.messages
    ((s.messages.filter p).map (·.id))
  { s with
    messages := s.messages.filter (fun m => !(decide (m.id ∈ dead))),
    notifications := s.notifications.filter (fun n => !(decide (n.message ∈ dead))),
    histories := s.histories.filter (fun h => !(decide (h.message ∈ dead))) }

/-- Delete a single Message (cascades to its reply subtree and to the
Notifications and MessageHistory rows referencing any deleted message). -/
def deleteMessage (s : Store) (id : Nat) : Store :=
  deleteMessagesWhere s (fun m => decide (m.id = id))

/-- The database-level cascade triggered by `user.delete()`: every Message the
user sent or received (with `on_delete=CASCADE` on both `sender` and
`receiver`), every Notification targeting the user, and every MessageHistory
row the user edited, all per models.py's foreign keys; the user row itself is
removed. -/
def fkCascadeUser (s : Store) (u : Nat) : Store :=
  let s1 := deleteMessagesWhere s (fun m => decide (m.sender = u) || decide (m.receiver = u))
  { s1 with
    users := s1.users.filter (fun v => !(decide (v = u))),
    notifications := s1.notifications.filter (fun n => !(decide (n.user = u))),
    histories := s1.histories.filter (fun h => !(decide (h.editor = u))) }

/-- The `post_delete` hook `cleanup_user_data` (signals.py): four queryset
deletes in source order — messages sent by the user, messages received by the
user (each cascading), notifications targeting the user, history rows edited
by the user. -/
def cleanup_user_data (s : Store) (u : Nat) : Store :=
  let s1 := deleteMessagesWhere s (fun m => decide (m.sender = u))
  let s2 := deleteMessagesWhere s1 (fun m => decide (m.receiver = u))
  let s3 := { s2 with notifications := s2.notifications.filter (fun n => !(decide (n.user = u))) }
  { s3 with histories := s3.histories.filter (fun h => !(decide (h.editor = u))) }

/-- `deleteUser`: `user.delete()` performs the foreign-key cascade, after which
the `post_delete` signal runs `cleanup_user_data` (redundantly re-filtering an
already-cleaned store). -/
def deleteUser (s : Store) (u : Nat) : Store :=
  cleanup_user_data (fkCascadeUser s u) u

/-! ## Read side: replies, threads, unread, cached inbox -/

/-- The `replies` related manager of a message: all messages whose
`parent_message` points at it, in the related queryset's default order, which
is the model's `Meta.ordering = ['-timestamp']`. -/
def repliesOf (s : Store) (id : Nat) : List Msg :=
  defaultOrder (s.messages.filter (fun m => decide (m.parent_message = some id)))

/-- `Message.get_thread` (models.py): returns the requested message itself
(`filter(id=self.id).prefetch_related('replies').first()`); its children are
served by the `replies` related manager (`repliesOf`). -/
def get_thread (s : Store) (id : Nat) : Option Msg := findMsg s id

/-- Modelled from the spec: the custom unread manager
(`Message.unread.unread_for_user`, exercised by
`test_unread_messages_manager`) has no definition under src/ (no managers.py
is present).  Per the spec's contract it returns all Messages where
receiver = user and is_read = false, ordered per the default
(reverse-chronological) ordering. -/
def unread_for_user (s : Store) (u : Nat) : List Msg :=
  defaultOrder (s.messages.filter (fun m => decide (m.receiver = u) && !m.is_read))

/-- Per-user inbox cache: cached unread list keyed by user id. -/
def cacheGet (cs : List (Nat × List Msg)) (u : Nat) : Option (List Msg) :=
  (cs.find? (fun e => decide (e.fst = u))).map (·.snd)

/-- Modelled from the spec: the cached inbox view (the `inbox` URL exercised by
`test_inbox_view_caching`) has no view function under src/.  Per the spec, the
first read populates the per-user cache with the unread list (one storage
round-trip); a read that hits the cache is served from it with zero storage
round-trips.  Returns (result, new cache, storage round-trips). -/
def getInboxView (s : Store) (cs : List (Nat × List Msg)) (u : Nat) :
    List Msg × List (Nat × List Msg) × Nat :=
  match cacheGet cs u with
  | some v => (v, cs, 0)
  | none =>
    let v := unread_for_user s u
    (v, (u, v) :: cs, 1)

/-- `cache.clear()` (the explicit invalidation the tests perform). -/
def clearCache : List (Nat × List Msg) := []

/-- Message creation as seen by the cache: the creation path in src
(`Message.objects.create` plus the signal handlers in signals.py) performs no
cache operation, so the cache component is returned unchanged. -/
def createMessageCached (s : Store) (cs : List (Nat × List Msg))
    (sender receiver : Nat) (content : String) (ts : Nat)
    (parent : Option Nat) : (Store × Option Err) × List (Nat × List Msg) :=
  (createMessage s sender receiver content ts parent, cs)

/-! ## Operations, reachability, well-formedness -/

/-- The operations a caller can perform against the store (spec §6), plus
registration of an external User identity. -/
inductive Op where
  | addUser (u : Nat)
  | create (sender receiver : Nat) (content : String) (ts : Nat) (parent : Option Nat)
  | edit (id : Nat) (newContent : String) (ctx : AuthCtx) (ts : Nat)
  | read (id : Nat)
  | delUser (u : Nat)
  | delMsg (id : Nat)

/-- Apply one operation; an operation that raises leaves the store in the
state returned alongside the error. -/
def applyOp (s : Store) : Op → Store
  | Op.addUser u => { s with users := u :: s.users }
  | Op.create sender receiver content ts parent =>
      (createMessage s sender receiver content ts parent).1
  | Op.edit id newContent ctx ts => (editMessage s id newContent ctx ts).1
  | Op.read id => (markRead s id).1
  | Op.delUser u => deleteUser s u
  | Op.delMsg id => deleteMessage s id

/-- Stores reachable from the empty store by the modelled operations. -/
inductive Reachable : Store → Prop
  | init : Reachable emptyStore
  | step (s : Store) (op : Op) : Reachable s → Reachable (applyOp s op)

/-- Well-formedness of a store: message primary keys are below the id counter
and pairwise distinct, and every `parent_message`, `Notification.message` and
`MessageHistory.message` reference resolves to a persisted Message. -/
def WF (s : Store) : Prop :=
  (∀ m ∈ s.messages, m.id < s.nextMsgId) ∧
  (s.messages.map (·.id)).Nodup ∧
  (∀ m ∈ s.messages, ∀ p, m.parent_message = some p → p ∈ msgIds s) ∧
  (∀ n ∈ s.notifications, n.message ∈ msgIds s) ∧
  (∀ h ∈ s.histories, h.message ∈ msgIds s)

/-- Membership in the reply subtree of the message with id `root`: direct
replies and, transitively, replies of replies. -/
inductive InSubtree (s : Store) (root : Nat) : Msg → Prop
  | direct (m : Msg) : m ∈ s.messages → m.parent_message = some root →
      InSubtree s root m
  | step (p m : Msg) : InSubtree s root p → m ∈ s.messages →
      m.parent_message = some p.id → InSubtree s root m

/-- Number of messages not yet collected by the cascade: the termination
measure of the collector iteration. -/
def deadCount (msgs : List Msg) (dead : List Nat) : Nat :=
  (msgs.filter (fun m => !(decide (m.id ∈ dead)))).length

/-- Run a sequence of operations from the empty store. -/
def runOps (l : List Op) : Store := l.foldl applyOp emptyStore

/-- Sample store for concrete checks: users 1 and 2, a root message (id 0,
timestamp 0) and two replies to it (id 1 at timestamp 1, id 2 at timestamp 2). -/
def sampleThreadStore : Store :=
  runOps [Op.addUser 1, Op.addUser 2,
          Op.create 1 2 "root" 0 none,
          Op.create 2 1 "first reply" 1 (some 0),
          Op.create 1 2 "second reply" 2 (some 0)]

/-- Sample store: users 1 and 2 and a single message (id 0) from 1 to 2. -/
def sampleStore : Store :=
  runOps [Op.addUser 1, Op.addUser 2, Op.create 1 2 "hello" 0 none]

/-- The message row persisted in `sampleStore`. -/
def sampleMsg : Msg :=
  { id := 0, sender := 1, receiver := 2, content := "hello", timestamp := 0,
    is_read := false, edited := false, parent_message := none }

/-- Cache scenario, step 1: store holding message "A" (id 0) for receiver 2. -/
def cacheS1 : Store := runOps [Op.addUser 1, Op.addUser 2, Op.create 1 2 "A" 0 none]

/-- Cache scenario, step 2: receiver 2's inbox view has been read once,
populating the cache. -/
def cacheC1 : List (Nat × List Msg) := (getInboxView cacheS1 [] 2).2.1

/-- Cache scenario, step 3: message "B" (id 1) is created for receiver 2; the
creation path performs no cache operation. -/
def cacheAfterB : (Store × Option Err) × List (Nat × List Msg) :=
  createMessageCached cacheS1 cacheC1 1 2 "B" 1 none

/-! ## Helper lemmas: the cascade collector reaches its transitive closure -/

theorem mem_cascadeStep_of_mem {msgs : List Msg} {dead : List Nat} {x : Nat}
    (hx : x ∈ dead) : x ∈ cascadeStep msgs dead :=
  List.mem_append_left _ hx

theorem mem_cascadeClosure_of_mem :
    ∀ (fuel : Nat) (msgs : List Msg) (dead : List Nat) (x : Nat),
      x ∈ dead → x ∈ cascadeClosure fuel msgs dead
  | 0, _, _, _, hx => hx
  | fuel + 1, msgs, _, x, hx =>
    mem_cascadeClosure_of_mem fuel msgs _ x (mem_cascadeStep_of_mem hx)

theorem cascadeStep_eq_of_filter_nil {msgs : List Msg} {dead : List Nat}
    (h : msgs.filter (newlyDead dead) = []) : cascadeStep msgs dead = dead := by
  simp [cascadeStep, h]

theorem cascadeClosure_eq_of_stable {msgs : List Msg} {dead : List Nat}
    (h : cascadeStep msgs dead = dead) :
    ∀ fuel, cascadeClosure fuel msgs dead = dead := by
  intro fuel
  induction fuel with
  | zero => rfl
  | succ n ih => simp only [cascadeClosure, h, ih]

theorem length_filter_le_of_imp {α : Type} (l : List α) (p q : α → Bool)
    (hpq : ∀ a ∈ l, p a = true → q a = true) :
    (l.filter p).length ≤ (l.filter q).length := by
  induction l with
  | nil => simp
  | cons b t ih =>
    have ih' := ih (fun a ha hp => hpq a (List.mem_cons_of_mem b ha) hp)
    by_cases hb : p b = true
    · have hqb := hpq b (List.mem_cons_self b t) hb
      simp only [List.filter_cons, hb, if_true, hqb, List.length_cons]
      omega
    · simp only [List.filter_cons, if_neg hb]
      by_cases hqb : q b = true
      · simp only [hqb, if_true, List.length_cons]
        omega
      · simp only [if_neg hqb]
        exact ih'

theorem length_filter_lt_of_witness {α : Type} (l : List α) (p q : α → Bool)
    (hpq : ∀ a ∈ l, p a = true → q a = true) (a : α) (ha : a ∈ l)
    (hpa : p a = false) (hqa : q a = true) :
    (l.filter p).length < (l.filter q).length := by
  induction l with
  | nil => cases ha
  | cons b t ih =>
    have hpq' : ∀ x ∈ t, p x = true → q x = true :=
      fun x hx hp => hpq x (List.mem_cons_of_mem b hx) hp
    rcases List.mem_cons.mp ha with rfl | hat
    · have h1 : (t.filter p).length ≤ (t.filter q).length :=
        length_filter_le_of_imp t p q hpq'
      have hpa' : ¬ p a = true := by simp [hpa]
      simp only [List.filter_cons, if_neg hpa', hqa, if_true, List.length_cons]
      omega
    · have h1 := ih hpq' hat
      by_cases hb : p b = true
      · have hqb := hpq b (List.mem_cons_self b t) hb
        simp only [List.filter_cons, hb, if_true, hqb, List.length_cons]
        omega
      · simp only [List.filter_cons, if_neg hb]
        by_cases hqb : q b = true
        · simp only [hqb, if_true, List.length_cons]
          omega
        · simp only [if_neg hqb]
          exact h1

theorem deadCount_le (msgs : List Msg) (dead : List Nat) :
    deadCount msgs dead ≤ msgs.length :=
  (List.filter_sublist msgs).length_le

theorem deadCount_step_lt {msgs : List Msg} {dead : List Nat} {m : Msg}
    {rest : List Msg} (hfil : msgs.filter (newlyDead dead) = m :: rest) :
    deadCount msgs (cascadeStep msgs dead) < deadCount msgs dead := by
  have hm : m ∈ msgs.filter (newlyDead dead) := by
    rw [hfil]; exact List.mem_cons_self m rest
  have hm' := List.mem_filter.mp hm
  have hmem : m ∈ msgs := hm'.1
  have hnd : newlyDead dead m = true := hm'.2
  have hmid_notdead : ¬ m.id ∈ dead := by
    unfold newlyDead at hnd
    cases hpm : m.parent_message with
    | none => rw [hpm] at hnd; cases hnd
    | some p =>
      rw [hpm] at hnd
      have h2 := (Bool.and_eq_true _ _).mp hnd
      simpa using h2.2
  have hmid_dead' : m.id ∈ cascadeStep msgs dead :=
    List.mem_append_right _ (List.mem_map.mpr ⟨m, hm, rfl⟩)
  apply length_filter_lt_of_witness msgs _ _ ?_ m hmem ?_ ?_
  · intro a _ hp
    simp only [Bool.not_eq_true', decide_eq_false_iff_not] at hp ⊢
    exact fun ha => hp (mem_cascadeStep_of_mem ha)
  · have hd : decide (m.id ∈ cascadeStep msgs dead) = true := decide_eq_true hmid_dead'
    simp [hd]
  · simp only [Bool.not_eq_true', decide_eq_false_iff_not]
    exact hmid_notdead

theorem cascadeStep_cascadeClosure_eq :
    ∀ (fuel : Nat) (msgs : List Msg) (dead : List Nat),
      deadCount msgs dead ≤ fuel →
      cascadeStep msgs (cascadeClosure fuel msgs dead) =
        cascadeClosure fuel msgs dead := by
  intro fuel
  induction fuel with
  | zero =>
    intro msgs dead h0
    have hnil : msgs.filter (fun m => !(decide (m.id ∈ dead))) = [] :=
      List.length_eq_zero.mp (Nat.le_zero.mp h0)
    have hall : ∀ m ∈ msgs, m.id ∈ dead := by
      intro m hm
      have := List.filter_eq_nil_iff.mp hnil m hm
      simpa using this
    have hfil : msgs.filter (newlyDead dead) = [] := by
      apply List.filter_eq_nil_iff.mpr
      intro m hm
      unfold newlyDead
      cases hpm : m.parent_message with
      | none => simp
      | some p => simp [hall m hm]
    exact cascadeStep_eq_of_filter_nil hfil
  | succ n ih =>
    intro msgs dead h
    cases hfil : msgs.filter (newlyDead dead) with
    | nil =>
      have hstep := cascadeStep_eq_of_filter_nil hfil
      have hcl : cascadeClosure (n + 1) msgs dead = dead :=
        cascadeClosure_eq_of_stable hstep (n + 1)
      rw [hcl, hstep]
    | cons m rest =>
      have hlt := deadCount_step_lt hfil
      have h' : deadCount msgs (cascadeStep msgs dead) ≤ n := by omega
      show cascadeStep msgs (cascadeClosure n msgs (cascadeStep msgs dead)) = _
      exact ih msgs _ h'

theorem cascadeClosure_closed {msgs : List Msg} {dead : List Nat} {m : Msg}
    {p : Nat} (hm : m ∈ msgs) (hp : m.parent_message = some p)
    (hpd : p ∈ cascadeClosure msgs.length msgs dead) :
    m.id ∈ cascadeClosure msgs.length msgs dead := by
  have hfix : cascadeStep msgs (cascadeClosure msgs.length msgs dead) =
      cascadeClosure msgs.length msgs dead :=
    cascadeStep_cascadeClosure_eq msgs.length msgs dead (deadCount_le msgs dead)
  by_contra hmd
  have hnd : newlyDead (cascadeClosure msgs.length msgs dead) m = true := by
    unfold newlyDead
    rw [hp]
    simp only [Bool.and_eq_true, decide_eq_true_eq, Bool.not_eq_true',
      decide_eq_false_iff_not]
    exact ⟨hpd, hmd⟩
  have hstep : m.id ∈ cascadeStep msgs (cascadeClosure msgs.length msgs dead) :=
    List.mem_append_right _
      (List.mem_map.mpr ⟨m, List.mem_filter.mpr ⟨hm, hnd⟩, rfl⟩)
  rw [hfix] at hstep
  exact hmd hstep

/-! ## Helper lemmas: lookups, row updates, cascading deletes -/

theorem findMsg_id {s : Store} {id : Nat} {m : Msg} (h : findMsg s id = some m) :
    m.id = id := by
  have := List.find?_some h
  simpa using this

theorem findMsg_mem {s : Store} {id : Nat} {m : Msg} (h : findMsg s id = some m) :
    m ∈ s.messages :=
  List.mem_of_find?_eq_some h

theorem findMsg_refind {s : Store} {id : Nat} {m : Msg}
    (h : findMsg s id = some m) : findMsg s m.id = some m := by
  rw [findMsg_id h]; exact h

theorem mem_updateRow {msgs : List Msg} {inst m' : Msg}
    (h : m' ∈ updateRow msgs inst) :
    m' = inst ∨ (m' ∈ msgs ∧ m'.id ≠ inst.id) := by
  obtain ⟨m, hm, hval⟩ := List.mem_map.mp h
  by_cases hid : m.id = inst.id
  · left; rw [← hval]; simp [hid]
  · right
    rw [← hval]
    simp only [if_neg hid]
    exact ⟨hm, hid⟩

theorem updateRow_map_id (msgs : List Msg) (inst : Msg) :
    (updateRow msgs inst).map (·.id) = msgs.map (·.id) := by
  unfold updateRow
  rw [List.map_map]
  apply List.map_congr_left
  intro m _
  by_cases hid : m.id = inst.id
  · simp [hid]
  · simp [hid]

theorem mem_messages_dmw {s : Store} {p : Msg → Bool} {m : Msg} :
    m ∈ (deleteMessagesWhere s p).messages ↔
      m ∈ s.messages ∧
        m.id ∉ cascadeClosure s.messages.length s.messages
          ((s.messages.filter p).map (·.id)) := by
  simp [deleteMessagesWhere, List.mem_filter]

theorem dmw_messages_subset {s : Store} {p : Msg → Bool} :
    ∀ m ∈ (deleteMessagesWhere s p).messages, m ∈ s.messages :=
  fun _ hm => (mem_messages_dmw.mp hm).1

theorem dmw_not_p {s : Store} {p : Msg → Bool} {m : Msg}
    (hm : m ∈ (deleteMessagesWhere s p).messages) : ¬ p m = true := by
  intro hpm
  obtain ⟨hmem, hnd⟩ := mem_messages_dmw.mp hm
  exact hnd (mem_cascadeClosure_of_mem _ _ _ _
    (List.mem_map.mpr ⟨m, List.mem_filter.mpr ⟨hmem, hpm⟩, rfl⟩))

theorem mem_notif_dmw {s : Store} {p : Msg → Bool} {n : Notif} :
    n ∈ (deleteMessagesWhere s p).notifications ↔
      n ∈ s.notifications ∧
        n.message ∉ cascadeClosure s.messages.length s.messages
          ((s.messages.filter p).map (·.id)) := by
  simp [deleteMessagesWhere, List.mem_filter]

theorem mem_hist_dmw {s : Store} {p : Msg → Bool} {h : MsgHistory} :
    h ∈ (deleteMessagesWhere s p).histories ↔
      h ∈ s.histories ∧
        h.message ∉ cascadeClosure s.messages.length s.messages
          ((s.messages.filter p).map (·.id)) := by
  simp [deleteMessagesWhere, List.mem_filter]

/-- In a well-formed store, every surviving reference of a cascading delete
still resolves, and the delete preserves well-formedness. -/
theorem wf_dmw {s : Store} (p : Msg → Bool) (hWF : WF s) :
    WF (deleteMessagesWhere s p) := by
  obtain ⟨hbound, hnodup, hpar, hnotif, hhist⟩ := hWF
  have hkeep : ∀ q : Nat, q ∈ msgIds s →
      q ∉ cascadeClosure s.messages.length s.messages
        ((s.messages.filter p).map (·.id)) →
      q ∈ msgIds (deleteMessagesWhere s p) := by
    intro q hq hqd
    obtain ⟨w, hw, hwq⟩ := List.mem_map.mp hq
    refine List.mem_map.mpr ⟨w, ?_, hwq⟩
    refine mem_messages_dmw.mpr ⟨hw, ?_⟩
    rw [hwq]; exact hqd
  refine ⟨?_, ?_, ?_, ?_, ?_⟩
  · intro m hm
    exact hbound m (dmw_messages_subset m hm)
  · have hsub : ((deleteMessagesWhere s p).messages.map (·.id)).Sublist
        (s.messages.map (·.id)) :=
      (List.filter_sublist s.messages).map (·.id)
    exact hnodup.sublist hsub
  · intro m hm q hq
    obtain ⟨hmem, hmd⟩ := mem_messages_dmw.mp hm
    have hqs : q ∈ msgIds s := hpar m hmem q hq
    apply hkeep q hqs
    intro hqd
    exact hmd (cascadeClosure_closed hmem hq hqd)
  · intro n hn
    obtain ⟨hmem, hmd⟩ := mem_notif_dmw.mp hn
    exact hkeep n.message (hnotif n hmem) hmd
  · intro h hh
    obtain ⟨hmem, hmd⟩ := mem_hist_dmw.mp hh
    exact hkeep h.message (hhist h hmem) hmd

/-! ## Well-formedness is preserved by every operation -/

theorem WF.mono {s s' : Store} (hWF : WF s)
    (hm : s'.messages = s.messages) (hid : s'.nextMsgId = s.nextMsgId)
    (hn : ∀ n ∈ s'.notifications, n ∈ s.notifications)
    (hh : ∀ h ∈ s'.histories, h ∈ s.histories) : WF s' := by
  obtain ⟨hb, hnd, hp, hno, hhi⟩ := hWF
  refine ⟨?_, ?_, ?_, ?_, ?_⟩
  · intro m hm'; rw [hm] at hm'; rw [hid]; exact hb m hm'
  · rw [hm]; exact hnd
  · intro m hm' q hq
    rw [hm] at hm'
    show q ∈ s'.messages.map (·.id)
    rw [hm]
    exact hp m hm' q hq
  · intro n hn'
    show n.message ∈ s'.messages.map (·.id)
    rw [hm]
    exact hno n (hn n hn')
  · intro h hh'
    show h.message ∈ s'.messages.map (·.id)
    rw [hm]
    exact hhi h (hh h hh')

theorem wf_emptyStore : WF emptyStore := by
  refine ⟨?_, ?_, ?_, ?_, ?_⟩ <;> simp [emptyStore]

theorem wf_after_update {s : Store} (hWF : WF s) (old inst : Msg)
    (hold : old ∈ s.messages) (hid : inst.id = old.id)
    (hp : inst.parent_message = old.parent_message)
    (hists : List MsgHistory) (nh : Nat)
    (hhists : ∀ h ∈ hists, h ∈ s.histories ∨ h.message = inst.id) :
    WF { s with messages := updateRow s.messages inst,
                histories := hists, nextHistId := nh } := by
  obtain ⟨hb, hnd, hpar, hno, hhi⟩ := hWF
  have hids : (updateRow s.messages inst).map (·.id) = s.messages.map (·.id) :=
    updateRow_map_id s.messages inst
  have hIdMem : ∀ q : Nat, q ∈ msgIds s →
      q ∈ (updateRow s.messages inst).map (·.id) := by
    intro q hq; rw [hids]; exact hq
  refine ⟨?_, ?_, ?_, ?_, ?_⟩
  · intro m hm
    have : m.id ∈ (updateRow s.messages inst).map (·.id) :=
      List.mem_map.mpr ⟨m, hm, rfl⟩
    rw [hids] at this
    obtain ⟨w, hw, hwe⟩ := List.mem_map.mp this
    show m.id < s.nextMsgId
    rw [← hwe]
    exact hb w hw
  · show ((updateRow s.messages inst).map (·.id)).Nodup
    rw [hids]; exact hnd
  · intro m hm q hq
    show q ∈ (updateRow s.messages inst).map (·.id)
    rw [hids]
    rcases mem_updateRow hm with rfl | ⟨hmem, _⟩
    · rw [hp] at hq
      exact hpar old hold q hq
    · exact hpar m hmem q hq
  · intro n hn
    show n.message ∈ (updateRow s.messages inst).map (·.id)
    rw [hids]
    exact hno n hn
  · intro h hh
    show h.message ∈ (updateRow s.messages inst).map (·.id)
    rw [hids]
    rcases hhists h hh with hmem | hmsg
    · exact hhi h hmem
    · rw [hmsg, hid]
      exact List.mem_map.mpr ⟨old, hold, rfl⟩

/-! ### Branch equations for the write operations -/

theorem createMessageF_ref {s : Store} {a b : Nat} {c : String} {ts : Nat}
    {parent : Option Nat} (nf : Bool)
    (hcond : ¬ (a ∈ s.users ∧ b ∈ s.users ∧ parentOk s parent = true)) :
    createMessageF s a b c ts parent nf = (s, some Err.refIntegrity) := by
  unfold createMessageF
  rw [if_neg hcond]

theorem createMessageF_ok {s : Store} {a b : Nat} {c : String} {ts : Nat}
    {parent : Option Nat}
    (hcond : a ∈ s.users ∧ b ∈ s.users ∧ parentOk s parent = true) :
    createMessageF s a b c ts parent false =
      ({ s with
          messages := s.messages ++
            [{ id := s.nextMsgId, sender := a, receiver := b, content := c,
               timestamp := ts, is_read := false, edited := false,
               parent_message := parent }],
          notifications := s.notifications ++
            [{ id := s.nextNotifId, user := b, message := s.nextMsgId,
               created_at := ts, is_read := false }],
          nextMsgId := s.nextMsgId + 1,
          nextNotifId := s.nextNotifId + 1 }, none) := by
  unfold createMessageF
  rw [if_pos hcond]
  rfl

theorem createMessageF_notifFail {s : Store} {a b : Nat} {c : String} {ts : Nat}
    {parent : Option Nat}
    (hcond : a ∈ s.users ∧ b ∈ s.users ∧ parentOk s parent = true) :
    createMessageF s a b c ts parent true =
      ({ s with
          messages := s.messages ++
            [{ id := s.nextMsgId, sender := a, receiver := b, content := c,
               timestamp := ts, is_read := false, edited := false,
               parent_message := parent }],
          nextMsgId := s.nextMsgId + 1 }, some Err.storageError) := by
  unfold createMessageF
  rw [if_pos hcond]
  rfl

theorem saveMessageF_unchanged {s : Store} (old inst : Msg)
    (ctx : AuthCtx) (ts : Nat) (hf : Bool)
    (hfind : findMsg s inst.id = some old)
    (hc : old.content = inst.content) :
    saveMessageF s inst ctx ts hf =
      ({ s with messages := updateRow s.messages inst }, none) := by
  unfold saveMessageF
  rw [hfind]
  simp only [if_pos hc]

theorem saveMessageF_authFail {s : Store} (old inst : Msg) (ts : Nat)
    (hf : Bool) (hfind : findMsg s inst.id = some old)
    (hc : ¬ old.content = inst.content) :
    saveMessageF s inst AuthCtx.err ts hf = (s, some Err.authError) := by
  unfold saveMessageF
  rw [hfind]
  simp only [if_neg hc]

theorem saveMessageF_histFail {s : Store} (old inst : Msg)
    (ctx : AuthCtx) (ts : Nat) (hfind : findMsg s inst.id = some old)
    (hc : ¬ old.content = inst.content) (hctx : ctx ≠ AuthCtx.err) :
    saveMessageF s inst ctx ts true = (s, some Err.storageError) := by
  unfold saveMessageF
  rw [hfind]
  simp only [if_neg hc]
  cases ctx with
  | err => exact absurd rfl hctx
  | anon => rfl
  | auth u => rfl

theorem saveMessageF_changed {s : Store} (old inst : Msg)
    (ctx : AuthCtx) (ts : Nat) (hfind : findMsg s inst.id = some old)
    (hc : ¬ old.content = inst.content) (hctx : ctx ≠ AuthCtx.err) :
    saveMessageF s inst ctx ts false =
      ({ s with
          messages := updateRow s.messages { inst with edited := true },
          histories := s.histories ++
            [{ id := s.nextHistId, message := inst.id,
               old_content := old.content, edited_at := ts,
               editor := resolveEditor ctx inst }],
          nextHistId := s.nextHistId + 1 }, none) := by
  unfold saveMessageF
  rw [hfind]
  simp only [if_neg hc]
  cases ctx with
  | err => exact absurd rfl hctx
  | anon => rfl
  | auth u => rfl

theorem editMessageF_notFound {s : Store} {id : Nat} (c : String)
    (ctx : AuthCtx) (ts : Nat) (hf : Bool) (hnone : findMsg s id = none) :
    editMessageF s id c ctx ts hf = (s, some Err.notFound) := by
  unfold editMessageF
  rw [hnone]

theorem editMessageF_found {s : Store} {id : Nat} {old : Msg} (c : String)
    (ctx : AuthCtx) (ts : Nat) (hf : Bool) (hfind : findMsg s id = some old) :
    editMessageF s id c ctx ts hf =
      saveMessageF s { old with content := c } ctx ts hf := by
  unfold editMessageF
  rw [hfind]

theorem markRead_notFound {s : Store} {id : Nat} (hnone : findMsg s id = none) :
    markRead s id = (s, some Err.notFound) := by
  unfold markRead
  rw [hnone]

theorem markRead_found {s : Store} {id : Nat} {old : Msg}
    (hfind : findMsg s id = some old) :
    markRead s id =
      ({ s with messages := updateRow s.messages { old with is_read := true } },
        none) := by
  unfold markRead
  rw [hfind]
  exact saveMessageF_unchanged old { old with is_read := true } AuthCtx.err 0
    false (findMsg_refind hfind) rfl

theorem wf_create {s : Store} (hWF : WF s) (a b : Nat) (c : String) (ts : Nat)
    (parent : Option Nat) : WF (createMessage s a b c ts parent).1 := by
  obtain ⟨hb, hnd, hpar, hno, hhi⟩ := hWF
  unfold createMessage
  by_cases hcond : a ∈ s.users ∧ b ∈ s.users ∧ parentOk s parent = true
  · rw [createMessageF_ok hcond]
    refine ⟨?_, ?_, ?_, ?_, ?_⟩
    · intro m hm
      rcases List.mem_append.mp hm with hmem | hnew
      · exact Nat.lt_succ_of_lt (hb m hmem)
      · rw [List.mem_singleton.mp hnew]
        exact Nat.lt_succ_self _
    · rw [List.map_append, List.nodup_append]
      refine ⟨hnd, List.nodup_singleton _, ?_⟩
      intro x hx hx'
      rw [List.map_singleton, List.mem_singleton] at hx'
      obtain ⟨w, hw, hwe⟩ := List.mem_map.mp hx
      have := hb w hw
      simp only at hx'
      omega
    · intro m hm q hq
      show q ∈ List.map (·.id) (s.messages ++ _)
      rw [List.map_append]
      apply List.mem_append_left
      rcases List.mem_append.mp hm with hmem | hnew
      · exact hpar m hmem q hq
      · rw [List.mem_singleton.mp hnew] at hq
        simp only at hq
        have hpOk := hcond.2.2
        rw [hq] at hpOk
        unfold parentOk at hpOk
        simpa [msgIds] using hpOk
    · intro n hn
      show n.message ∈ List.map (·.id) (s.messages ++ _)
      rw [List.map_append]
      rcases List.mem_append.mp hn with hmem | hnew
      · exact List.mem_append_left _ (hno n hmem)
      · apply List.mem_append_right
        rw [List.mem_singleton.mp hnew]
        simp
    · intro h hh
      show h.message ∈ List.map (·.id) (s.messages ++ _)
      rw [List.map_append]
      exact List.mem_append_left _ (hhi h hh)
  · rw [createMessageF_ref false hcond]
    exact ⟨hb, hnd, hpar, hno, hhi⟩

theorem wf_save_changed {s : Store} (hWF : WF s) (old inst : Msg)
    (hold : old ∈ s.messages) (hid : inst.id = old.id)
    (hp : inst.parent_message = old.parent_message) (ts : Nat)
    (ctx : AuthCtx) :
    WF { s with
          messages := updateRow s.messages { inst with edited := true },
          histories := s.histories ++
            [{ id := s.nextHistId, message := inst.id,
               old_content := old.content, edited_at := ts,
               editor := resolveEditor ctx inst }],
          nextHistId := s.nextHistId + 1 } := by
  apply wf_after_update hWF old { inst with edited := true } hold hid hp
  intro h hh
  rcases List.mem_append.mp hh with hx | hx
  · exact Or.inl hx
  · right
    rw [List.mem_singleton.mp hx]

theorem wf_edit {s : Store} (hWF : WF s) (id : Nat) (c : String) (ctx : AuthCtx)
    (ts : Nat) (hf : Bool) : WF (editMessageF s id c ctx ts hf).1 := by
  cases hfind : findMsg s id with
  | none => rw [editMessageF_notFound c ctx ts hf hfind]; exact hWF
  | some old =>
    rw [editMessageF_found c ctx ts hf hfind]
    have hre : findMsg s ({ old with content := c } : Msg).id = some old :=
      findMsg_refind hfind
    by_cases hceq : old.content = ({ old with content := c } : Msg).content
    · rw [saveMessageF_unchanged old _ ctx ts hf hre hceq]
      exact wf_after_update hWF old { old with content := c }
        (findMsg_mem hfind) rfl rfl s.histories s.nextHistId
        (fun _ hh => Or.inl hh)
    · cases ctx with
      | err =>
        rw [saveMessageF_authFail old _ ts hf hre hceq]
        exact hWF
      | anon =>
        cases hf with
        | true =>
          rw [saveMessageF_histFail old _ AuthCtx.anon ts hre hceq (by simp)]
          exact hWF
        | false =>
          rw [saveMessageF_changed old _ AuthCtx.anon ts hre hceq (by simp)]
          exact wf_save_changed hWF old { old with content := c }
            (findMsg_mem hfind) rfl rfl ts AuthCtx.anon
      | auth u =>
        cases hf with
        | true =>
          rw [saveMessageF_histFail old _ (AuthCtx.auth u) ts hre hceq (by simp)]
          exact hWF
        | false =>
          rw [saveMessageF_changed old _ (AuthCtx.auth u) ts hre hceq (by simp)]
          exact wf_save_changed hWF old { old with content := c }
            (findMsg_mem hfind) rfl rfl ts (AuthCtx.auth u)

theorem wf_read {s : Store} (hWF : WF s) (id : Nat) :
    WF (markRead s id).1 := by
  cases hfind : findMsg s id with
  | none => rw [markRead_notFound hfind]; exact hWF
  | some old =>
    rw [markRead_found hfind]
    exact wf_after_update hWF old { old with is_read := true }
      (findMsg_mem hfind) rfl rfl s.histories s.nextHistId
      (fun _ hh => Or.inl hh)

theorem wf_delUser {s : Store} (hWF : WF s) (u : Nat) : WF (deleteUser s u) := by
  have w1 : WF (deleteMessagesWhere s
      (fun m => decide (m.sender = u) || decide (m.receiver = u))) :=
    wf_dmw _ hWF
  have w2 : WF (fkCascadeUser s u) := by
    unfold fkCascadeUser
    exact WF.mono w1 rfl rfl (fun n hn => (List.mem_filter.mp hn).1)
      (fun h hh => (List.mem_filter.mp hh).1)
  have w3 := wf_dmw (fun m => decide (m.sender = u)) w2
  have w4 := wf_dmw (fun m => decide (m.receiver = u)) w3
  unfold deleteUser cleanup_user_data
  exact WF.mono w4 rfl rfl (fun n hn => (List.mem_filter.mp hn).1)
    (fun h hh => (List.mem_filter.mp hh).1)

theorem wf_applyOp {s : Store} (hWF : WF s) (op : Op) : WF (applyOp s op) := by
  cases op with
  | addUser u => exact WF.mono hWF rfl rfl (fun n hn => hn) (fun h hh => hh)
  | create a b c ts parent => exact wf_create hWF a b c ts parent
  | edit id c ctx ts => exact wf_edit hWF id c ctx ts false
  | read id => exact wf_read hWF id
  | delUser u => exact wf_delUser hWF u
  | delMsg id => exact wf_dmw _ hWF

theorem reachable_wf {s : Store} (h : Reachable s) : WF s := by
  induction h with
  | init => exact wf_emptyStore
  | step s op _ ih => exact wf_applyOp ih op

/-! ## More shared helpers -/

theorem cleanup_messages_sub (t : Store) (u : Nat) :
    ∀ m ∈ (cleanup_user_data t u).messages, m ∈ t.messages := by
  intro m hm
  simp only [cleanup_user_data] at hm
  exact dmw_messages_subset _ (dmw_messages_subset _ hm)

theorem fk_messages_sub (t : Store) (u : Nat) :
    ∀ m ∈ (fkCascadeUser t u).messages, m ∈ t.messages := by
  intro m hm
  simp only [fkCascadeUser] at hm
  exact dmw_messages_subset _ hm

theorem deleteUser_messages_sub (s : Store) (u : Nat) :
    ∀ m ∈ (deleteUser s u).messages, m ∈ s.messages := by
  intro m hm
  exact fk_messages_sub s u m
    (cleanup_messages_sub (fkCascadeUser s u) u m hm)

/-- In a store with distinct message ids, every row carrying the id of an
edited row in a sub-collection of the rows is that edited row. -/
theorem editedAll_of_sub {s : Store} {msgs' : List Msg}
    (hnd : (s.messages.map (·.id)).Nodup)
    (hsub : ∀ m ∈ msgs', m ∈ s.messages) {id : Nat}
    (hex : ∃ m ∈ s.messages, m.id = id ∧ m.edited = true) :
    ∀ m' ∈ msgs', m'.id = id → m'.edited = true := by
  obtain ⟨m, hm, hmid, hmed⟩ := hex
  intro m' hm' hid'
  have heq : m' = m :=
    List.inj_on_of_nodup_map hnd (hsub m' hm') hm (by rw [hid', hmid])
  rw [heq]
  exact hmed

/-- The `edited` flag survives an UPDATE that replaces a row by an instance
derived from it which does not lower the flag. -/
theorem editedAll_updateRow {s : Store}
    (hnd : (s.messages.map (·.id)).Nodup) (old inst : Msg)
    (hold : old ∈ s.messages) (hinstid : inst.id = old.id)
    (hED : old.edited = true → inst.edited = true) {id : Nat}
    (hex : ∃ m ∈ s.messages, m.id = id ∧ m.edited = true) :
    ∀ m' ∈ updateRow s.messages inst, m'.id = id → m'.edited = true := by
  obtain ⟨m, hm, hmid, hmed⟩ := hex
  intro m' hm' hid'
  rcases mem_updateRow hm' with rfl | ⟨hmem, _⟩
  · have hoid : old.id = id := by rw [← hinstid]; exact hid'
    have heq : old = m :=
      List.inj_on_of_nodup_map hnd hold hm (by rw [hoid, hmid])
    exact hED (heq ▸ hmed)
  · have heq : m' = m :=
      List.inj_on_of_nodup_map hnd hmem hm (by rw [hid', hmid])
    rw [heq]
    exact hmed

/-- Every member of the reply subtree of `root` is collected by the cascade
closure seeded with the rows whose id is `root`. -/
theorem inSubtree_dead {s : Store} {root : Nat} {m : Msg} (hWF : WF s)
    (hsub : InSubtree s root m) :
    m.id ∈ cascadeClosure s.messages.length s.messages
      ((s.messages.filter (fun w => decide (w.id = root))).map (·.id)) := by
  induction hsub with
  | direct m hm hp =>
    have hroot : root ∈ msgIds s := hWF.2.2.1 m hm root hp
    obtain ⟨w, hw, hwid⟩ := List.mem_map.mp hroot
    have hseed : root ∈ (s.messages.filter
        (fun w => decide (w.id = root))).map (·.id) :=
      List.mem_map.mpr ⟨w, List.mem_filter.mpr ⟨hw, by simp [hwid]⟩, hwid⟩
    exact cascadeClosure_closed hm hp (mem_cascadeClosure_of_mem _ _ _ _ hseed)
  | step p m _ hm hp ih =>
    exact cascadeClosure_closed hm hp ih

theorem reachable_foldl (l : List Op) :
    ∀ s : Store, Reachable s → Reachable (l.foldl applyOp s) := by
  induction l with
  | nil => exact fun s hs => hs
  | cons op t ih => exact fun s hs => ih (applyOp s op) (Reachable.step s op hs)

theorem reachable_runOps (l : List Op) : Reachable (runOps l) :=
  reachable_foldl l emptyStore Reachable.init

/-! ## Claim theorems -/

/-- C9: `editMessage(messageId, newContent, actingUser)` fails with
`NotFoundError` whenever `messageId` does not refer to an existing Message,
and in that case the store state is unchanged: no Message, MessageHistory or
Notification is created (the returned store is exactly the input store). -/
theorem editMessage_unknown_id_fails (s : Store) (id : Nat) (c : String)
    (ctx : AuthCtx) (ts : Nat) (hnone : findMsg s id = none) :
    editMessage s id c ctx ts = (s, some Err.notFound) :=
  editMessageF_notFound c ctx ts false hnone

/-- Witness for C9 at a concrete store: id 5 is unknown in `sampleStore`. -/
theorem editMessage_unknown_id_fails_witness :
    findMsg sampleStore 5 = none ∧
      editMessage sampleStore 5 "x" AuthCtx.anon 0 =
        (sampleStore, some Err.notFound) :=
  ⟨by decide,
   editMessage_unknown_id_fails sampleStore 5 "x" AuthCtx.anon 0 (by decide)⟩

/-- C3: after `deleteUser(u)` completes, the store contains zero Messages with
`u` as sender or receiver, zero Notifications targeting `u`, and zero
MessageHistory rows with `u` as editor. -/
theorem deleteUser_postcondition (s : Store) (u : Nat) :
    (∀ m ∈ (deleteUser s u).messages, m.sender ≠ u ∧ m.receiver ≠ u) ∧
    (∀ n ∈ (deleteUser s u).notifications, n.user ≠ u) ∧
    (∀ h ∈ (deleteUser s u).histories, h.editor ≠ u) := by
  refine ⟨?_, ?_, ?_⟩
  · intro m hm
    unfold deleteUser at hm
    simp only [cleanup_user_data] at hm
    constructor
    · have h1 := dmw_not_p (dmw_messages_subset _ hm)
      simpa using h1
    · have h2 := dmw_not_p hm
      simpa using h2
  · intro n hn
    unfold deleteUser at hn
    simp only [cleanup_user_data] at hn
    have := (List.mem_filter.mp hn).2
    simpa using this
  · intro h hh
    unfold deleteUser at hh
    simp only [cleanup_user_data] at hh
    have := (List.mem_filter.mp hh).2
    simpa using this

/-- C4 counterexample: in a thread whose root (id 0) has two replies with
timestamps 1 and 2, the children served by the `replies` related manager come
back `[timestamp 2, timestamp 1]` — reverse-chronological, not the ascending
chronological order the claim states. -/
theorem thread_order_counterexample :
    (repliesOf sampleThreadStore 0).map (·.timestamp) = [2, 1] ∧
    ¬ List.Sorted (fun a b : Msg => a.timestamp ≤ b.timestamp)
        (repliesOf sampleThreadStore 0) := by
  constructor
  · decide
  · decide

/-- C4 (amended): `getThread` returns the requested message as root, and each
node's children are exactly its direct replies — but ordered by creation
timestamp descending (reverse-chronological, inherited from the model's
default `-timestamp` ordering), the same order as the default listing order,
not ascending. -/
theorem thread_children_reverse_chronological (s : Store) (id : Nat) :
    (∀ m : Msg, m ∈ repliesOf s id ↔
        m ∈ s.messages ∧ m.parent_message = some id) ∧
    List.Sorted chronDesc (repliesOf s id) ∧
    List.Sorted chronDesc (defaultOrder s.messages) ∧
    (∀ root : Msg, get_thread s id = some root → root.id = id) := by
  refine ⟨?_, ?_, ?_, ?_⟩
  · intro m
    unfold repliesOf defaultOrder
    rw [List.mem_insertionSort, List.mem_filter]
    simp
  · exact List.sorted_insertionSort chronDesc _
  · exact List.sorted_insertionSort chronDesc _
  · intro root h
    exact findMsg_id h

/-- C7: when the edit-detection hook sees a content change but cannot resolve
an authenticated acting editor, the edit is not silently dropped: if the
ambient `get_user` call raises, the whole Message update fails with the store
unchanged; if it returns an unauthenticated user, the MessageHistory row is
still created deterministically with the message's sender as editor. -/
theorem editor_fallback_no_silent_drop (s : Store) (id : Nat) (c : String)
    (ts : Nat) (old : Msg) (hfind : findMsg s id = some old)
    (hneq : ¬ old.content = c) :
    editMessage s id c AuthCtx.err ts = (s, some Err.authError) ∧
    ∃ h : MsgHistory,
      (editMessage s id c AuthCtx.anon ts).2 = none ∧
      (editMessage s id c AuthCtx.anon ts).1.histories = s.histories ++ [h] ∧
      h.editor = old.sender ∧ h.old_content = old.content ∧ h.message = id := by
  have hre : findMsg s ({ old with content := c } : Msg).id = some old :=
    findMsg_refind hfind
  have hc : ¬ old.content = ({ old with content := c } : Msg).content := hneq
  constructor
  · unfold editMessage
    rw [editMessageF_found c AuthCtx.err ts false hfind]
    exact saveMessageF_authFail old _ ts false hre hc
  · have heq : editMessage s id c AuthCtx.anon ts =
        ({ s with
            messages := updateRow s.messages
              { { old with content := c } with edited := true },
            histories := s.histories ++
              [{ id := s.nextHistId,
                 message := ({ old with content := c } : Msg).id,
                 old_content := old.content, edited_at := ts,
                 editor := resolveEditor AuthCtx.anon
                   { old with content := c } }],
            nextHistId := s.nextHistId + 1 }, none) := by
      unfold editMessage
      rw [editMessageF_found c AuthCtx.anon ts false hfind]
      exact saveMessageF_changed old _ AuthCtx.anon ts hre hc (by simp)
    refine ⟨{ id := s.nextHistId, message := old.id, old_content := old.content,
              edited_at := ts, editor := old.sender }, ?_, ?_, rfl, rfl,
           findMsg_id hfind⟩
    · rw [heq]
    · rw [heq]
      rfl

/-- Witness for C7 at a concrete store: editing message 0 of `sampleStore`
with new content while unauthenticated. -/
theorem editor_fallback_no_silent_drop_witness :
    (findMsg sampleStore 0 = some sampleMsg ∧
      ¬ sampleMsg.content = "changed") ∧
    editMessage sampleStore 0 "changed" AuthCtx.err 5 =
      (sampleStore, some Err.authError) :=
  ⟨⟨by decide, by decide⟩,
   (editor_fallback_no_silent_drop sampleStore 0 "changed" 5 sampleMsg
      (by decide) (by decide)).1⟩

/-- C2: every Message creation creates exactly one Notification, targeting the
receiver, referencing the new Message, with `is_read = false`; and no update
to an existing Message (content edit or read-receipt) ever creates a
Notification. -/
theorem notification_on_create_only (s : Store) (a b : Nat) (c : String)
    (ts : Nat) (parent : Option Nat)
    (ha : a ∈ s.users) (hb : b ∈ s.users) (hp : parentOk s parent = true) :
    (∃ n : Notif,
      (createMessage s a b c ts parent).2 = none ∧
      (createMessage s a b c ts parent).1.notifications =
        s.notifications ++ [n] ∧
      n.user = b ∧ n.message = s.nextMsgId ∧ n.is_read = false ∧
      ∃ m ∈ (createMessage s a b c ts parent).1.messages,
        m.id = s.nextMsgId) ∧
    (∀ (id : Nat) (c2 : String) (ctx : AuthCtx) (ts2 : Nat),
      (editMessage s id c2 ctx ts2).1.notifications = s.notifications) ∧
    (∀ id : Nat, (markRead s id).1.notifications = s.notifications) := by
  have hcond : a ∈ s.users ∧ b ∈ s.users ∧ parentOk s parent = true :=
    ⟨ha, hb, hp⟩
  refine ⟨?_, ?_, ?_⟩
  · unfold createMessage
    rw [createMessageF_ok hcond]
    exact ⟨{ id := s.nextNotifId, user := b, message := s.nextMsgId,
             created_at := ts, is_read := false },
           rfl, rfl, rfl, rfl, rfl,
           ⟨_, List.mem_append_right _ (List.mem_singleton_self _), rfl⟩⟩
  · intro id c2 ctx ts2
    unfold editMessage
    cases hfind : findMsg s id with
    | none => rw [editMessageF_notFound c2 ctx ts2 false hfind]
    | some old =>
      rw [editMessageF_found c2 ctx ts2 false hfind]
      have hre : findMsg s ({ old with content := c2 } : Msg).id = some old :=
        findMsg_refind hfind
      by_cases hceq : old.content = ({ old with content := c2 } : Msg).content
      · rw [saveMessageF_unchanged old _ ctx ts2 false hre hceq]
      · cases ctx with
        | err => rw [saveMessageF_authFail old _ ts2 false hre hceq]
        | anon =>
          rw [saveMessageF_changed old _ AuthCtx.anon ts2 hre hceq (by simp)]
        | auth u =>
          rw [saveMessageF_changed old _ (AuthCtx.auth u) ts2 hre hceq
            (by simp)]
  · intro id
    cases hfind : findMsg s id with
    | none => rw [markRead_notFound hfind]
    | some old => rw [markRead_found hfind]

/-- Witness for C2: creating a message from user 1 to user 2 in `sampleStore`
appends exactly one notification for user 2. -/
theorem notification_on_create_only_witness :
    (1 ∈ sampleStore.users ∧ 2 ∈ sampleStore.users ∧
      parentOk sampleStore none = true) ∧
    ∃ n : Notif,
      (createMessage sampleStore 1 2 "again" 7 none).2 = none ∧
      (createMessage sampleStore 1 2 "again" 7 none).1.notifications =
        sampleStore.notifications ++ [n] ∧
      n.user = 2 ∧ n.message = sampleStore.nextMsgId ∧ n.is_read = false ∧
      ∃ m ∈ (createMessage sampleStore 1 2 "again" 7 none).1.messages,
        m.id = sampleStore.nextMsgId :=
  ⟨⟨by decide, by decide, by decide⟩,
   (notification_on_create_only sampleStore 1 2 "again" 7 none (by decide)
      (by decide) (by decide)).1⟩

/-- C5: `getUnread(u)` returns exactly the Messages whose receiver is `u` and
whose `is_read` flag is false, in the default reverse-chronological order;
after a message is marked read it no longer appears in the result. -/
theorem unread_messages_spec (s : Store) (u : Nat) (id : Nat) (old : Msg)
    (hfind : findMsg s id = some old) :
    (∀ m : Msg, m ∈ unread_for_user s u ↔
        m ∈ s.messages ∧ m.receiver = u ∧ m.is_read = false) ∧
    List.Sorted chronDesc (unread_for_user s u) ∧
    (∀ m ∈ unread_for_user (markRead s id).1 u, m.id ≠ id) := by
  refine ⟨?_, List.sorted_insertionSort chronDesc _, ?_⟩
  · intro m
    unfold unread_for_user defaultOrder
    rw [List.mem_insertionSort, List.mem_filter]
    simp
  · intro m hm
    rw [markRead_found hfind] at hm
    unfold unread_for_user defaultOrder at hm
    rw [List.mem_insertionSort, List.mem_filter] at hm
    obtain ⟨hmem, hflag⟩ := hm
    intro heq
    rcases mem_updateRow hmem with heqm | ⟨_, hne⟩
    · rw [heqm] at hflag
      simp at hflag
    · apply hne
      show m.id = ({ old with is_read := true } : Msg).id
      rw [heq]
      exact (findMsg_id hfind).symm

/-- Witness for C5: in `sampleStore`, after marking message 0 read, the unread
list of user 2 no longer contains id 0. -/
theorem unread_messages_spec_witness :
    findMsg sampleStore 0 = some sampleMsg ∧
    (∀ m ∈ unread_for_user (markRead sampleStore 0).1 2, m.id ≠ 0) :=
  ⟨by decide,
   (unread_messages_spec sampleStore 2 0 sampleMsg (by decide)).2.2⟩

/-- C6 counterexample: receiver 2's inbox view is cached holding only message
"A" (id 0); creating message "B" (id 1) for receiver 2 performs no cache
operation, so the very next `getInboxView(2)` is served from the cache with
zero storage round-trips and does not contain the new message — a stale
cached inbox IS served after a write for that receiver. -/
theorem cache_stale_after_create_counterexample :
    (∃ m ∈ cacheAfterB.1.1.messages,
        m.id = 1 ∧ m.receiver = 2 ∧ m.is_read = false) ∧
    (getInboxView cacheAfterB.1.1 cacheAfterB.2 2).2.2 = 0 ∧
    ∀ m ∈ (getInboxView cacheAfterB.1.1 cacheAfterB.2 2).1, m.id ≠ 1 := by
  refine ⟨?_, ?_, ?_⟩
  · decide
  · decide
  · decide

/-- C6 (amended): creating a Message does not invalidate the receiver's
cached inbox view: a populated cache entry is returned unchanged (zero
storage round-trips) by the next read after the creation, so a stale inbox
can be served; the cache is only invalidated by an explicit cache clear,
after which the next read hits storage once and reflects every unread
message, including the new one. -/
theorem cache_invalidated_only_by_clear (s : Store)
    (cs : List (Nat × List Msg)) (u a b : Nat) (c : String) (ts : Nat)
    (parent : Option Nat) (v : List Msg)
    (hcache : cacheGet cs u = some v) :
    getInboxView (createMessageCached s cs a b c ts parent).1.1
        (createMessageCached s cs a b c ts parent).2 u = (v, cs, 0) ∧
    ∀ s' : Store,
      (getInboxView s' clearCache u).2.2 = 1 ∧
      ∀ m ∈ s'.messages, m.receiver = u → m.is_read = false →
        m ∈ (getInboxView s' clearCache u).1 := by
  constructor
  · show getInboxView _ cs u = (v, cs, 0)
    unfold getInboxView
    rw [hcache]
  · intro s'
    constructor
    · rfl
    · intro m hm hrecv hread
      show m ∈ (getInboxView s' [] u).1
      show m ∈ unread_for_user s' u
      unfold unread_for_user defaultOrder
      rw [List.mem_insertionSort, List.mem_filter]
      refine ⟨hm, ?_⟩
      rw [hrecv, hread]
      simp

/-- Witness for C6 (amended), on the concrete cache scenario: the populated
cache entry for user 2 is served unchanged right after creating message "B". -/
theorem cache_invalidated_only_by_clear_witness :
    cacheGet cacheC1 2 = some (unread_for_user cacheS1 2) ∧
    getInboxView cacheAfterB.1.1 cacheAfterB.2 2 =
      (unread_for_user cacheS1 2, cacheC1, 0) :=
  ⟨by decide,
   (cache_invalidated_only_by_clear cacheS1 cacheC1 2 1 2 "B" 1 none
      (unread_for_user cacheS1 2) (by decide)).1⟩

/-- C8 counterexample: in `sampleStore` (users 1 and 2, one prior message),
creating a new message while the Notification INSERT fails leaves the new
Message (id 1) committed with no Notification referencing it — the primary
write is NOT rolled back, because the notification is created in `post_save`,
after the Message INSERT has already been committed. -/
theorem notif_failure_leaves_message_counterexample :
    (createMessageF sampleStore 1 2 "hi" 1 none true).2 =
      some Err.storageError ∧
    (∃ m ∈ (createMessageF sampleStore 1 2 "hi" 1 none true).1.messages,
        m.id = 1 ∧ m.content = "hi") ∧
    ∀ n ∈ (createMessageF sampleStore 1 2 "hi" 1 none true).1.notifications,
      n.message ≠ 1 := by
  refine ⟨?_, ?_, ?_⟩
  · decide
  · decide
  · decide

/-- C8 (amended): a failure while creating the MessageHistory row on a
content-changing update aborts the whole update (the `pre_save` hook raises
before the UPDATE, leaving the store unchanged); but a failure while creating
the Notification on Message creation does NOT abort the creation — the error
propagates, yet the new Message stays committed with the notifications table
unchanged. -/
theorem derived_write_failure_semantics (s : Store) (id : Nat) (c : String)
    (ctx : AuthCtx) (ts : Nat) (old : Msg) (a b : Nat) (c2 : String)
    (parent : Option Nat)
    (hfind : findMsg s id = some old) (hneq : ¬ old.content = c)
    (hctx : ctx ≠ AuthCtx.err)
    (ha : a ∈ s.users) (hb : b ∈ s.users) (hp : parentOk s parent = true) :
    editMessageF s id c ctx ts true = (s, some Err.storageError) ∧
    (createMessageF s a b c2 ts parent true).2 = some Err.storageError ∧
    (∃ m, (createMessageF s a b c2 ts parent true).1.messages =
        s.messages ++ [m] ∧ m.id = s.nextMsgId) ∧
    (createMessageF s a b c2 ts parent true).1.notifications =
      s.notifications := by
  have hcond : a ∈ s.users ∧ b ∈ s.users ∧ parentOk s parent = true :=
    ⟨ha, hb, hp⟩
  refine ⟨?_, ?_, ?_, ?_⟩
  · rw [editMessageF_found c ctx ts true hfind]
    exact saveMessageF_histFail old _ ctx ts (findMsg_refind hfind) hneq hctx
  · rw [createMessageF_notifFail hcond]
  · rw [createMessageF_notifFail hcond]
    exact ⟨_, rfl, rfl⟩
  · rw [createMessageF_notifFail hcond]

/-- Witness for C8 (amended): concrete history-failure on editing message 0
of `sampleStore`, and concrete notification-failure on creating into it. -/
theorem derived_write_failure_semantics_witness :
    (findMsg sampleStore 0 = some sampleMsg ∧
      ¬ sampleMsg.content = "changed" ∧ AuthCtx.anon ≠ AuthCtx.err ∧
      1 ∈ sampleStore.users ∧ 2 ∈ sampleStore.users ∧
      parentOk sampleStore none = true) ∧
    editMessageF sampleStore 0 "changed" AuthCtx.anon 5 true =
      (sampleStore, some Err.storageError) :=
  ⟨⟨by decide, by decide, by decide, by decide, by decide, by decide⟩,
   (derived_write_failure_semantics sampleStore 0 "changed" AuthCtx.anon 5
      sampleMsg 1 2 "hi" none (by decide) (by decide) (by decide) (by decide)
      (by decide) (by decide)).1⟩

/-- C1: for every update to an already-persisted Message, exactly one new
MessageHistory row is created if and only if the incoming content differs
from the persisted content; the row's `old_content` equals the pre-update
persisted content, the Message's `edited` flag becomes true and is never
reset to false by any later operation, and an update that leaves content
unchanged (e.g. toggling `is_read`) creates zero MessageHistory rows and
leaves `edited` unaffected. -/
theorem edit_history_invariant (s : Store) (id : Nat) (c : String)
    (ctx : AuthCtx) (ts : Nat) (old : Msg) (hWF : WF s)
    (hfind : findMsg s id = some old) :
    (¬ old.content = c → ctx ≠ AuthCtx.err →
      ∃ h : MsgHistory,
        (editMessage s id c ctx ts).2 = none ∧
        (editMessage s id c ctx ts).1.histories = s.histories ++ [h] ∧
        h.old_content = old.content ∧ h.message = id ∧
        ∀ m' ∈ (editMessage s id c ctx ts).1.messages,
          m'.id = id → m'.edited = true) ∧
    (old.content = c →
      (editMessage s id c ctx ts).1.histories = s.histories) ∧
    ((markRead s id).1.histories = s.histories ∧
      ∀ m' ∈ (markRead s id).1.messages,
        m'.id = id → m'.edited = old.edited) ∧
    (∀ op : Op, (∃ m ∈ s.messages, m.id = id ∧ m.edited = true) →
      ∀ m' ∈ (applyOp s op).messages, m'.id = id → m'.edited = true) := by
  have hb := hWF.1
  have hnd := hWF.2.1
  have hre : findMsg s ({ old with content := c } : Msg).id = some old :=
    findMsg_refind hfind
  refine ⟨?_, ?_, ?_, ?_⟩
  · intro hneq hctx
    have heq : editMessage s id c ctx ts =
        ({ s with
            messages := updateRow s.messages
              { { old with content := c } with edited := true },
            histories := s.histories ++
              [{ id := s.nextHistId,
                 message := ({ old with content := c } : Msg).id,
                 old_content := old.content, edited_at := ts,
                 editor := resolveEditor ctx { old with content := c } }],
            nextHistId := s.nextHistId + 1 }, none) := by
      unfold editMessage
      rw [editMessageF_found c ctx ts false hfind]
      exact saveMessageF_changed old _ ctx ts hre hneq hctx
    refine ⟨{ id := s.nextHistId, message := old.id,
              old_content := old.content, edited_at := ts,
              editor := resolveEditor ctx { old with content := c } },
            ?_, ?_, rfl, findMsg_id hfind, ?_⟩
    · rw [heq]
    · rw [heq]
    · rw [heq]
      intro m' hm' hid'
      rcases mem_updateRow hm' with heqm | ⟨_, hne⟩
      · rw [heqm]
      · exfalso
        apply hne
        show m'.id = ({ old with content := c } : Msg).id
        rw [hid']
        exact (findMsg_id hfind).symm
  · intro hceq
    unfold editMessage
    rw [editMessageF_found c ctx ts false hfind,
        saveMessageF_unchanged old _ ctx ts false hre hceq]
  · constructor
    · rw [markRead_found hfind]
    · rw [markRead_found hfind]
      intro m' hm' hid'
      rcases mem_updateRow hm' with heqm | ⟨_, hne⟩
      · rw [heqm]
      · exfalso
        apply hne
        show m'.id = ({ old with is_read := true } : Msg).id
        rw [hid']
        exact (findMsg_id hfind).symm
  · intro op hex
    cases op with
    | addUser u =>
      simp only [applyOp]
      exact editedAll_of_sub hnd (fun m hm => hm) hex
    | create a2 b2 c2 ts2 parent2 =>
      simp only [applyOp]
      by_cases hcond : a2 ∈ s.users ∧ b2 ∈ s.users ∧
          parentOk s parent2 = true
      · unfold createMessage
        rw [createMessageF_ok hcond]
        intro m' hm' hid'
        rcases List.mem_append.mp hm' with hmem | hnew
        · exact editedAll_of_sub hnd (fun m hm => hm) hex m' hmem hid'
        · exfalso
          obtain ⟨m, hm, hmid, _⟩ := hex
          have hbm := hb m hm
          have hnewid : m'.id = s.nextMsgId := by
            rw [List.mem_singleton.mp hnew]
          omega
      · unfold createMessage
        rw [createMessageF_ref false hcond]
        exact editedAll_of_sub hnd (fun m hm => hm) hex
    | edit id2 c2 ctx2 ts2 =>
      simp only [applyOp]
      unfold editMessage
      cases hfind2 : findMsg s id2 with
      | none =>
        rw [editMessageF_notFound c2 ctx2 ts2 false hfind2]
        exact editedAll_of_sub hnd (fun m hm => hm) hex
      | some old2 =>
        rw [editMessageF_found c2 ctx2 ts2 false hfind2]
        have hre2 : findMsg s ({ old2 with content := c2 } : Msg).id =
            some old2 := findMsg_refind hfind2
        by_cases hceq2 : old2.content =
            ({ old2 with content := c2 } : Msg).content
        · rw [saveMessageF_unchanged old2 _ ctx2 ts2 false hre2 hceq2]
          exact editedAll_updateRow hnd old2 { old2 with content := c2 }
            (findMsg_mem hfind2) rfl (fun h => h) hex
        · cases ctx2 with
          | err =>
            rw [saveMessageF_authFail old2 _ ts2 false hre2 hceq2]
            exact editedAll_of_sub hnd (fun m hm => hm) hex
          | anon =>
            rw [saveMessageF_changed old2 _ AuthCtx.anon ts2 hre2 hceq2
              (by simp)]
            exact editedAll_updateRow hnd old2
              { { old2 with content := c2 } with edited := true }
              (findMsg_mem hfind2) rfl (fun _ => rfl) hex
          | auth u2 =>
            rw [saveMessageF_changed old2 _ (AuthCtx.auth u2) ts2 hre2 hceq2
              (by simp)]
            exact editedAll_updateRow hnd old2
              { { old2 with content := c2 } with edited := true }
              (findMsg_mem hfind2) rfl (fun _ => rfl) hex
    | read id2 =>
      simp only [applyOp]
      cases hfind2 : findMsg s id2 with
      | none =>
        rw [markRead_notFound hfind2]
        exact editedAll_of_sub hnd (fun m hm => hm) hex
      | some old2 =>
        rw [markRead_found hfind2]
        exact editedAll_updateRow hnd old2 { old2 with is_read := true }
          (findMsg_mem hfind2) rfl (fun h => h) hex
    | delUser u =>
      simp only [applyOp]
      exact editedAll_of_sub hnd (deleteUser_messages_sub s u) hex
    | delMsg id2 =>
      simp only [applyOp]
      exact editedAll_of_sub hnd
        (fun m hm => dmw_messages_subset m hm) hex

/-- Witness for C1: a concrete content-changing edit of message 0 in
`sampleStore` appends exactly one history row snapshotting "hello". -/
theorem edit_history_invariant_witness :
    (WF sampleStore ∧ findMsg sampleStore 0 = some sampleMsg ∧
      ¬ sampleMsg.content = "changed" ∧ AuthCtx.anon ≠ AuthCtx.err) ∧
    ∃ h : MsgHistory,
      (editMessage sampleStore 0 "changed" AuthCtx.anon 5).2 = none ∧
      (editMessage sampleStore 0 "changed" AuthCtx.anon 5).1.histories =
        sampleStore.histories ++ [h] ∧
      h.old_content = sampleMsg.content ∧ h.message = 0 ∧
      ∀ m' ∈ (editMessage sampleStore 0 "changed" AuthCtx.anon 5).1.messages,
        m'.id = 0 → m'.edited = true :=
  ⟨⟨reachable_wf (reachable_runOps _), by decide, by decide, by decide⟩,
   (edit_history_invariant sampleStore 0 "changed" AuthCtx.anon 5 sampleMsg
      (reachable_wf (reachable_runOps _)) (by decide)).1 (by decide)
      (by decide)⟩

/-- C10: deleting a single Message also deletes, in the same operation, every
direct and transitive reply in its subtree and every Notification and
MessageHistory row referencing a deleted message; consequently, in every
reachable store state no Notification, MessageHistory row, or reply
references a Message that does not exist. -/
theorem delete_cascade_invariant (s : Store) (root : Nat) (hWF : WF s) :
    (∀ m' ∈ (deleteMessage s root).messages, m'.id ≠ root) ∧
    (∀ m : Msg, InSubtree s root m →
      ∀ m' ∈ (deleteMessage s root).messages, m'.id ≠ m.id) ∧
    (∀ n ∈ (deleteMessage s root).notifications,
      n.message ∈ msgIds (deleteMessage s root)) ∧
    (∀ h ∈ (deleteMessage s root).histories,
      h.message ∈ msgIds (deleteMessage s root)) ∧
    (∀ m ∈ (deleteMessage s root).messages, ∀ p, m.parent_message = some p →
      p ∈ msgIds (deleteMessage s root)) ∧
    (∀ t : Store, Reachable t →
      (∀ n ∈ t.notifications, n.message ∈ msgIds t) ∧
      (∀ h ∈ t.histories, h.message ∈ msgIds t) ∧
      (∀ m ∈ t.messages, ∀ p, m.parent_message = some p → p ∈ msgIds t)) := by
  have w := wf_dmw (fun m => decide (m.id = root)) hWF
  refine ⟨?_, ?_, w.2.2.2.1, w.2.2.2.2, w.2.2.1, ?_⟩
  · intro m' hm' heq
    have := dmw_not_p hm'
    simp only [decide_eq_true_eq] at this
    exact this heq
  · intro m hsub m' hm' heq
    have hdead := inSubtree_dead hWF hsub
    have hm'2 := mem_messages_dmw.mp hm'
    apply hm'2.2
    rw [heq]
    exact hdead
  · intro t ht
    have w' := reachable_wf ht
    exact ⟨w'.2.2.2.1, w'.2.2.2.2, w'.2.2.1⟩

/-- Witness for C10: deleting the root (id 0) of `sampleThreadStore` removes
it and its transitive reply with id 2. -/
theorem delete_cascade_invariant_witness :
    WF sampleThreadStore ∧
    (∀ m' ∈ (deleteMessage sampleThreadStore 0).messages, m'.id ≠ 0) :=
  ⟨reachable_wf (reachable_runOps _),
   (delete_cascade_invariant sampleThreadStore 0
      (reachable_wf (reachable_runOps _))).1⟩

end Messaging
